import Mathlib

/-!
Verification development for the `kraul` breadth-first web crawler
(`kraul.go`).  The Go source is shallowly embedded: pure functions become
Lean functions, the crawl scheduler's event loop becomes an explicit step
function over a scheduler state, and code that can panic (a nil-pointer
dereference) returns `Option`, with `none` marking the crash.

External collaborators (the `net/url` parser and printer, the HTML
tokenizer, the HTTP transport) are not part of the repository; they are
modelled as explicit primitives, restricted to the URL components the
program reads or writes: scheme, host, path and fragment.
-/

/-- A URL value, mirroring the fields of Go `net/url.URL` read or written by
`kraul.go`: `Scheme`, `Host`, `Path`, `Fragment`.  Query, user info, port
handling and opaque forms are outside the model. -/
structure URL where
  scheme : String
  host : String
  path : String
  fragment : String
  deriving DecidableEq, Repr

/-- ASCII letter test, as in the scheme scanner of `net/url`. -/
def isAlphaChar (c : Char) : Bool :=
  decide (('a' ≤ c ∧ c ≤ 'z') ∨ ('A' ≤ c ∧ c ≤ 'Z'))

/-- Characters allowed after the first position of a URL scheme. -/
def isSchemeTailChar (c : Char) : Bool :=
  decide (('0' ≤ c ∧ c ≤ '9') ∨ c = '+' ∨ c = '-' ∨ c = '.')

/-- ASCII control character test (`net/url` rejects URLs containing these). -/
def isCtlChar (c : Char) : Bool :=
  decide (c.val < 32 ∨ c.val = 127)

/-- Lower-casing of one ASCII character (`net/url` lower-cases the scheme). -/
def lowerChar (c : Char) : Char :=
  if decide ('A' ≤ c ∧ c ≤ 'Z') then Char.ofNat (c.toNat + 32) else c

/-- Modelled from the spec: the external parser cuts the input at the first
`#`; the part after it is the fragment (empty when there is no `#`). -/
def splitFrag : List Char → List Char × List Char
  | [] => ([], [])
  | c :: cs =>
    if c = '#' then ([], cs)
    else
      let r := splitFrag cs
      (c :: r.1, r.2)

/-- Modelled from the spec: the scheme scanner of the external parser.
`none` is the "missing protocol scheme" error (a `:` before any scheme
character); `some (sch, rest)` returns the scheme (possibly empty, meaning
the reference is relative) and the remainder. -/
def getSchemeAux (orig : List Char) (acc : List Char) :
    List Char → Option (List Char × List Char)
  | [] => some ([], orig)
  | c :: cs =>
    if isAlphaChar c then getSchemeAux orig (c :: acc) cs
    else if isSchemeTailChar c then
      if acc = [] then some ([], orig) else getSchemeAux orig (c :: acc) cs
    else if c = ':' then
      if acc = [] then none else some (acc.reverse, cs)
    else some ([], orig)

/-- Scheme scanner entry point. -/
def getScheme (cs : List Char) : Option (List Char × List Char) :=
  getSchemeAux cs [] cs

/-- Modelled from the spec: the external URL parser (`net/url.Parse`),
restricted to scheme, host, path and fragment.  It fails (`none`) on a
control character, on a `:` before any scheme character, and on opaque
forms (`scheme:rootless-rest`), which the model excludes; the program only
feeds opaque anchors through `resolveHref`'s pass-through branch and the
scheduler filters them out with `isWebUrl`, so no claim depends on them. -/
def parseURL (s : String) : Option URL :=
  let fr := splitFrag s.data
  let frag := fr.2
  if fr.1.any isCtlChar then none
  else
    match getScheme fr.1 with
    | none => none
    | some (sch, rest) =>
      let schemeStr := String.mk (sch.map lowerChar)
      match rest with
      | '/' :: '/' :: after =>
        if sch = [] ∧ after.take 1 = ['/'] then
          some ⟨schemeStr, "", String.mk rest, String.mk frag⟩
        else
          some ⟨schemeStr, String.mk (after.takeWhile (fun c => ¬ c = '/')),
                String.mk (after.dropWhile (fun c => ¬ c = '/')), String.mk frag⟩
      | _ =>
        if sch ≠ [] ∧ rest ≠ [] ∧ rest.take 1 ≠ ['/'] then none
        else some ⟨schemeStr, "", String.mk rest, String.mk frag⟩

/-- Modelled from the spec: the external URL printer (`net/url.URL.String`)
on the modelled components: `scheme:`, then `//host` when a host or path is
present, a `/` inserted before a rootless path when a host is present, then
the path and `#fragment`. -/
def URL.toString (u : URL) : String :=
  (if u.scheme = "" then "" else u.scheme ++ ":") ++
  (if u.scheme = "" ∧ u.host = "" then ""
   else (if u.host = "" ∧ u.path = "" then "" else "//") ++ u.host) ++
  (if ¬ u.path = "" ∧ u.path.take 1 ≠ "/" ∧ ¬ u.host = "" then "/" else "") ++
  u.path ++
  (if u.fragment = "" then "" else "#" ++ u.fragment)

/-- Clearing the fragment of a URL (`url.Fragment = ""` in the source). -/
def stripFragment (u : URL) : URL := { u with fragment := "" }

/-- From `kraul.go` `isWebUrl`: true exactly for the `http` and `https`
schemes. -/
def isWebUrl (u : URL) : Bool :=
  u.scheme == "http" || u.scheme == "https"

/-- The directory part returned by Go `path.Split(base.Path)`: everything up
to and including the final `/`, empty when there is no `/`. -/
def dirOf (p : String) : String :=
  String.mk ((p.data.reverse.dropWhile (fun c => ¬ c = '/')).reverse)

/-- The two failure cases of `resolveHref` in `kraul.go`: the explicit
"Base URL has no scheme / host" error and a parse error on the reference. -/
inductive ResolveError where
  | missingBase
  | malformedRef
  deriving DecidableEq, Repr

/-- The component merge performed by `resolveHref` in `kraul.go` after the
reference has been parsed: an empty scheme inherits the base's scheme;
`http`/`https`/`ftp` fall through; any other scheme returns the parsed
reference unmodified.  Then an empty host inherits the base's host, an
empty path becomes the base's path (or `/` when that is also empty), and a
rootless path is concatenated onto the directory part of the base's path. -/
def mergeURL (base u : URL) : URL :=
  if u.scheme = "" ∨ u.scheme = "http" ∨ u.scheme = "https" ∨ u.scheme = "ftp" then
    { scheme := if u.scheme = "" then base.scheme else u.scheme
      host := if u.host = "" then base.host else u.host
      path :=
        if u.path = "" then (if base.path = "" then "/" else base.path)
        else if u.path.take 1 ≠ "/" then dirOf base.path ++ u.path
        else u.path
      fragment := u.fragment }
  else u

/-- From `kraul.go` `resolveHref`: fails when the base lacks a scheme or a
host, then parses the reference (failure is `malformedRef`) and merges its
components with the base's. -/
def resolveHref (base : URL) (href : String) : Except ResolveError URL :=
  if base.scheme = "" ∨ base.host = "" then Except.error ResolveError.missingBase
  else
    match parseURL href with
    | none => Except.error ResolveError.malformedRef
    | some u => Except.ok (mergeURL base u)

/-- Whether the Go regular expression of `getPhoneNumber`, anchored
`tel://(.+)`, matches the whole value: a `tel://` head followed by a
non-empty remainder containing no newline (`.` does not match a newline and
the pattern is not in multi-line mode). -/
def telMatches (value : String) : Bool :=
  ['t', 'e', 'l', ':', '/', '/'].isPrefixOf value.data &&
  decide (value.data.drop 6 ≠ []) &&
  !(value.data.drop 6).any (fun c => c = '\n')

/-- From `kraul.go` `getPhoneNumber`: on a match it returns `results[0]`,
the full anchored match, which is the entire input value. -/
def getPhoneNumber (value : String) : Bool × String :=
  if telMatches value then (true, value) else (false, "")

/-- A token of the streamed document, as delivered by the external HTML
tokenizer: a start tag with its attribute list, or any other token
(end tags, text, comments, the self-closing form), which the extraction
loop ignores.  The end of the token list models the `ErrorToken` that ends
the loop. -/
inductive Token where
  | startTag (name : String) (attrs : List (String × String))
  | otherToken
  deriving DecidableEq, Repr

/-- From `kraul.go` `getAttribute`: the value of the first attribute with
the given key, if any. -/
def getAttribute (attrs : List (String × String)) (name : String) : Option String :=
  match attrs.find? (fun a => a.1 == name) with
  | some a => some a.2
  | none => none

/-- The loop state of `kraul.go` `extractLinks`: the in-head flag, the
current resolution base, and the two accumulated output sequences. -/
structure ExtractState where
  inHeader : Bool
  base : URL
  links : List URL
  phones : List String
  deriving DecidableEq, Repr

/-- One iteration of the token loop of `kraul.go` `extractLinks`.  `none`
models the crash in the `base` branch: on a parse failure `url.Parse`
returns a nil pointer, which is assigned to `baseURL`, and the fallback
statement `*baseURL = documentUrl` then dereferences nil and panics. -/
def stepExtract (s : ExtractState) : Token → Option ExtractState
  | Token.otherToken => some s
  | Token.startTag name attrs =>
    if name = "head" then some { s with inHeader := true }
    else if name = "base" then
      if s.inHeader then
        match getAttribute attrs "href" with
        | some raw =>
          match parseURL raw with
          | some u => some { s with base := u }
          | none => none
        | none => some s
      else some s
    else if name = "a" then
      match getAttribute attrs "href" with
      | none => some s
      | some raw =>
        match getPhoneNumber raw with
        | (true, pn) => some { s with phones := s.phones ++ [pn] }
        | (false, _) =>
          match resolveHref s.base raw with
          | Except.error _ => some s
          | Except.ok u => some { s with links := s.links ++ [stripFragment u] }
    else some s

/-- The token loop of `extractLinks`, run to the end of the stream. -/
def runExtract (s : ExtractState) : List Token → Option ExtractState
  | [] => some s
  | t :: ts =>
    match stepExtract s t with
    | none => none
    | some s2 => runExtract s2 ts

/-- The initial state of `extractLinks`: not in the head, resolution base
equal to the document's address, empty output sequences. -/
def initExtract (docUrl : URL) : ExtractState :=
  ⟨false, docUrl, [], []⟩

/-- From `kraul.go` `extractLinks`: the extracted link and phone-number
sequences, or `none` when the loop panics. -/
def extractLinks (docUrl : URL) (tokens : List Token) :
    Option (List URL × List String) :=
  match runExtract (initExtract docUrl) tokens with
  | none => none
  | some s => some (s.links, s.phones)

/-- The raw `href` values of the anchor start tags of a token stream, in
document order. -/
def anchorHrefs : List Token → List String
  | [] => []
  | Token.startTag name attrs :: ts =>
    if name = "a" then
      match getAttribute attrs "href" with
      | some raw => raw :: anchorHrefs ts
      | none => anchorHrefs ts
    else anchorHrefs ts
  | Token.otherToken :: ts => anchorHrefs ts

/-- The scheduler state of `kraul.go` `startCrawling`: the frontier queue
(`urlChannel` contents not yet taken by a worker), the dedup set
(`foundUrls`, in insertion order), the outstanding counter (`urlsCounter`),
and, for stating invariants, the list of every address ever put on the
frontier, the seed first (`admitted.head` is the seed; `admitted.tail` are
the addresses enqueued by the result-processing loop). -/
structure SchedState where
  frontier : List URL
  visited : List String
  counter : Int
  admitted : List URL
  deriving DecidableEq, Repr

/-- The state after `urlsCounter = 1; urlChannel <- startUrl`: the seed is
enqueued unconditionally, without touching `foundUrls`. -/
def initState (seed : URL) : SchedState :=
  ⟨[seed], [], 1, [seed]⟩

/-- One iteration of the inner loop over `result.Links` in `startCrawling`:
non-web schemes are skipped; the fragment is cleared; the string form is
looked up in `foundUrls`; a new address is enqueued, counted and recorded. -/
def admitOne (st : SchedState) (l : URL) : SchedState :=
  if isWebUrl l then
    if st.visited.contains (URL.toString (stripFragment l)) then st
    else
      { st with
        frontier := st.frontier ++ [stripFragment l]
        counter := st.counter + 1
        visited := st.visited ++ [URL.toString (stripFragment l)]
        admitted := st.admitted ++ [stripFragment l] }
  else st

/-- The loop over `result.Links` in `startCrawling`. -/
def admitLinks (st : SchedState) (ls : List URL) : SchedState :=
  ls.foldl admitOne st

/-- One delivery on the scheduler's merged input: a `CrawlError` from
`errorChannel`, or a fetched page from `intermediateResultChannel`, carried
as the fetched address together with the token stream of its body (link
extraction happens in the worker, inside `loadPage`). -/
inductive CrawlEvent where
  | errorResult (u : URL)
  | pageResult (docUrl : URL) (tokens : List Token)
  deriving DecidableEq, Repr

/-- One iteration of the `select` loop of `startCrawling`.  The delivered
address left the frontier when a worker picked it up, modelled by erasing
it here.  An error decrements the counter and adds nothing; a page result
decrements the counter and folds the page's extracted links into the
frontier.  `none` models the extraction panic killing the process. -/
def schedStep (st : SchedState) : CrawlEvent → Option SchedState
  | CrawlEvent.errorResult u =>
    some { st with frontier := st.frontier.erase u, counter := st.counter - 1 }
  | CrawlEvent.pageResult docUrl tokens =>
    match extractLinks docUrl tokens with
    | none => none
    | some (ls, _) =>
      some (admitLinks
        { st with frontier := st.frontier.erase docUrl, counter := st.counter - 1 }
        ls)

/-- The `select` loop of `startCrawling`, driven by a finite list of
deliveries. -/
def runSched (st : SchedState) : List CrawlEvent → Option SchedState
  | [] => some st
  | e :: es =>
    match schedStep st e with
    | none => none
    | some st2 => runSched st2 es

/-- What the scheduler is doing once the supplied deliveries are consumed.
`returnedAfterClose` is the behaviour the spec requires on quiescence
(close the pipeline to the sink and return); the `for`/`select` loop of
`startCrawling` has no branch producing it, so the embedding only ever
yields `waitingForEvents` (blocked in `select`) or `crashed`. -/
inductive LoopOutcome where
  | waitingForEvents
  | returnedAfterClose
  | crashed
  deriving DecidableEq, Repr

/-- `startCrawling` as observed after a finite list of deliveries: the loop
either crashed or is blocked in `select` waiting for more deliveries; it
never returns. -/
def runCrawl (seed : URL) (events : List CrawlEvent) :
    LoopOutcome × Option SchedState :=
  match runSched (initState seed) events with
  | none => (LoopOutcome.crashed, none)
  | some st => (LoopOutcome.waitingForEvents, some st)

/-- The observable outcome of the seed-handling part of `main`: whether the
parse error was printed, whether `startCrawling` and the workers were
started, and the process exit status when `main` returns at this point
(`none` when execution continues past seed handling). -/
structure MainOutcome where
  printedParseError : Bool
  startedWorkers : Bool
  exitCode : Option Nat
  deriving DecidableEq, Repr

/-- From `kraul.go` `main`: `url.Parse(os.Args[1])`; on error it prints the
error and executes a plain `return`, so the process exits with status 0;
on success it starts `startCrawling` and the consumer loop. -/
def mainModel (seedArg : String) : MainOutcome :=
  match parseURL seedArg with
  | none => { printedParseError := true, startedWorkers := false, exitCode := some 0 }
  | some _ => { printedParseError := false, startedWorkers := true, exitCode := none }

/-- Unfolding equation: a panicking step ends the extraction run. -/
theorem runExtract_cons_none (s : ExtractState) (t : Token) (ts : List Token)
    (h : stepExtract s t = none) : runExtract s (t :: ts) = none := by
  simp [runExtract, h]

/-- Unfolding equation: a successful step continues the extraction run. -/
theorem runExtract_cons_some (s s2 : ExtractState) (t : Token) (ts : List Token)
    (h : stepExtract s t = some s2) : runExtract s (t :: ts) = runExtract s2 ts := by
  simp [runExtract, h]

/-- The anchor hrefs of a stream split off its first token. -/
theorem anchorHrefs_cons (t : Token) (ts : List Token) :
    anchorHrefs (t :: ts) = anchorHrefs [t] ++ anchorHrefs ts := by
  cases t with
  | otherToken => simp [anchorHrefs]
  | startTag name attrs =>
    by_cases h1 : name = "a"
    · subst h1
      cases hattr : getAttribute attrs "href" <;> simp [anchorHrefs, hattr]
    · simp [anchorHrefs, h1]

/-- What one extraction step does to the outputs: the phone sequence grows
by exactly the matching anchor href of the token (if any), the link
sequence either is unchanged or grows by one successfully resolved,
fragment-stripped non-telephone anchor href, and the in-head flag is never
cleared. -/
theorem stepExtract_spec (s s2 : ExtractState) (t : Token)
    (h : stepExtract s t = some s2) :
    s2.phones = s.phones ++ (anchorHrefs [t]).filter telMatches ∧
    (s2.links = s.links ∨
      ∃ raw v, raw ∈ anchorHrefs [t] ∧ telMatches raw = false ∧
        resolveHref s.base raw = Except.ok v ∧
        s2.links = s.links ++ [stripFragment v]) ∧
    (s.inHeader = true → s2.inHeader = true) := by
  cases t with
  | otherToken =>
    simp only [stepExtract, Option.some.injEq] at h
    subst h
    simp [anchorHrefs]
  | startTag name attrs =>
    simp only [stepExtract] at h
    by_cases h1 : name = "head"
    · subst h1
      rw [if_pos rfl] at h
      injection h with h2
      subst h2
      simp [anchorHrefs]
    · rw [if_neg h1] at h
      by_cases h2 : name = "base"
      · subst h2
        rw [if_pos rfl] at h
        have hanchor : anchorHrefs [Token.startTag "base" attrs] = [] := by
          simp [anchorHrefs]
        by_cases hh : s.inHeader
        · rw [if_pos hh] at h
          cases hattr : getAttribute attrs "href" with
          | none => simp only [hattr, Option.some.injEq] at h; subst h; simp [hanchor]
          | some raw =>
            simp only [hattr] at h
            cases hp : parseURL raw with
            | none => simp [hp] at h
            | some u =>
              simp only [hp, Option.some.injEq] at h
              subst h
              simp [hanchor]
        · rw [if_neg hh] at h
          injection h with h3
          subst h3
          simp [hanchor]
      · rw [if_neg h2] at h
        by_cases h3 : name = "a"
        · subst h3
          rw [if_pos rfl] at h
          cases hattr : getAttribute attrs "href" with
          | none =>
            simp only [hattr, Option.some.injEq] at h
            subst h
            simp [anchorHrefs, hattr]
          | some raw =>
            simp only [hattr] at h
            have hanchor : anchorHrefs [Token.startTag "a" attrs] = [raw] := by
              simp [anchorHrefs, hattr]
            by_cases htel : telMatches raw
            · simp only [show getPhoneNumber raw = (true, raw) from by
                  simp [getPhoneNumber, htel], Option.some.injEq] at h
              subst h
              simp [hanchor, htel]
            · simp only [show getPhoneNumber raw = (false, "") from by
                  simp [getPhoneNumber, htel]] at h
              cases hres : resolveHref s.base raw with
              | error e =>
                simp only [hres, Option.some.injEq] at h
                subst h
                simp [hanchor, htel]
              | ok v =>
                simp only [hres, Option.some.injEq] at h
                subst h
                refine ⟨by simp [hanchor, htel], Or.inr ?_, fun hhd => hhd⟩
                exact ⟨raw, v, by simp [hanchor], by simp [htel], hres, rfl⟩
        · rw [if_neg h3] at h
          injection h with h4
          subst h4
          simp [anchorHrefs, h3]

/-- What a whole extraction run does to the outputs: phones are the
telephone-matching anchor hrefs appended in document order; every link in
the final state was present initially or is the fragment-stripped result of
successfully resolving a non-telephone anchor href; the in-head flag is
never cleared. -/
theorem runExtract_spec (ts : List Token) (s s1 : ExtractState)
    (h : runExtract s ts = some s1) :
    s1.phones = s.phones ++ (anchorHrefs ts).filter telMatches ∧
    (∀ l ∈ s1.links, l ∈ s.links ∨
      ∃ raw v, raw ∈ anchorHrefs ts ∧ telMatches raw = false ∧
        ∃ b, resolveHref b raw = Except.ok v ∧ l = stripFragment v) ∧
    (s.inHeader = true → s1.inHeader = true) := by
  induction ts generalizing s with
  | nil =>
    simp only [runExtract, Option.some.injEq] at h
    subst h
    simp [anchorHrefs]
  | cons t ts ih =>
    cases hst : stepExtract s t with
    | none => rw [runExtract_cons_none s t ts hst] at h; cases h
    | some s2 =>
      rw [runExtract_cons_some s s2 t ts hst] at h
      obtain ⟨hp, hl, hh⟩ := stepExtract_spec s s2 t hst
      obtain ⟨ihp, ihl, ihh⟩ := ih s2 h
      refine ⟨?_, ?_, fun hhd => ihh (hh hhd)⟩
      · rw [ihp, hp, anchorHrefs_cons t ts]
        simp [List.filter_append, List.append_assoc, anchorHrefs]
      · intro l hl1
        rcases ihl l hl1 with hin | ⟨raw, v, hraw, htel, b, hres, hlv⟩
        · rcases hl with hsame | ⟨raw, v, hraw, htel, hres, hlinks⟩
          · rw [hsame] at hin
            exact Or.inl hin
          · rw [hlinks] at hin
            rcases List.mem_append.mp hin with hx | hx
            · exact Or.inl hx
            · refine Or.inr ⟨raw, v, ?_, htel, s.base, hres, by simpa using hx⟩
              rw [anchorHrefs_cons]
              exact List.mem_append.mpr (Or.inl hraw)
        · refine Or.inr ⟨raw, v, ?_, htel, b, hres, hlv⟩
          rw [anchorHrefs_cons]
          exact List.mem_append.mpr (Or.inr hraw)

/-- Unfolding `isWebUrl` to a proposition on the scheme. -/
theorem isWebUrl_iff (u : URL) :
    isWebUrl u = true ↔ (u.scheme = "http" ∨ u.scheme = "https") := by
  simp [isWebUrl]

/-- A successful `resolveHref` means: the base had a scheme and a host, the
reference parsed, and the result is the component merge of the two. -/
theorem resolveHref_ok_cases (b : URL) (raw : String) (v : URL)
    (h : resolveHref b raw = Except.ok v) :
    ¬ (b.scheme = "" ∨ b.host = "") ∧
    ∃ u, parseURL raw = some u ∧ v = mergeURL b u := by
  unfold resolveHref at h
  split at h
  · simp at h
  · rename_i hbase
    refine ⟨hbase, ?_⟩
    cases hp : parseURL raw with
    | none => rw [hp] at h; simp at h
    | some u =>
      rw [hp] at h
      injection h with h2
      exact ⟨u, rfl, h2.symm⟩

/-- The merge cannot produce an empty host on a network scheme when the
base's host is non-empty: the host is the reference's (non-empty) or is
inherited from the base, and the pass-through branch cannot yield a network
scheme. -/
theorem mergeURL_host (b u : URL) (hb : ¬ b.host = "")
    (hw : (mergeURL b u).scheme = "http" ∨ (mergeURL b u).scheme = "https" ∨
          (mergeURL b u).scheme = "ftp") :
    ¬ (mergeURL b u).host = "" := by
  by_cases hc : u.scheme = "" ∨ u.scheme = "http" ∨ u.scheme = "https" ∨ u.scheme = "ftp"
  · simp only [mergeURL, if_pos hc]
    by_cases hh : u.host = "" <;> simp [hh, hb]
  · simp only [mergeURL, if_neg hc] at hw
    exact absurd (Or.inr hw) hc

/-- An address returned by a successful resolution with a network scheme
has a non-empty host. -/
theorem resolveHref_ok_host (b : URL) (raw : String) (v : URL)
    (h : resolveHref b raw = Except.ok v)
    (hw : v.scheme = "http" ∨ v.scheme = "https" ∨ v.scheme = "ftp") :
    ¬ v.host = "" := by
  obtain ⟨hbase, u, hp, hv⟩ := resolveHref_ok_cases b raw v h
  subst hv
  exact mergeURL_host b u (fun hh => hbase (Or.inr hh)) hw

/-- The property the scheduler relies on for every extracted link: its
fragment is already empty, and if it has a web scheme its host is
non-empty. -/
def goodLink (l : URL) : Prop :=
  l.fragment = "" ∧ (isWebUrl l = true → ¬ l.host = "")

/-- The output contract of `extractLinks`: the phone sequence is exactly
the telephone-matching anchor hrefs in document order, and every returned
link is the fragment-stripped result of successfully resolving some
non-telephone anchor href of the stream. -/
theorem extractLinks_spec (d : URL) (ts : List Token) (ls : List URL)
    (ps : List String) (h : extractLinks d ts = some (ls, ps)) :
    ps = (anchorHrefs ts).filter telMatches ∧
    ∀ l ∈ ls, ∃ raw v, raw ∈ anchorHrefs ts ∧ telMatches raw = false ∧
      ∃ b, resolveHref b raw = Except.ok v ∧ l = stripFragment v := by
  unfold extractLinks at h
  cases hr : runExtract (initExtract d) ts with
  | none => rw [hr] at h; simp at h
  | some s1 =>
    rw [hr] at h
    injection h with h2
    obtain ⟨hls, hps⟩ := Prod.mk.injEq .. ▸ (h2 : (s1.links, s1.phones) = (ls, ps))
    obtain ⟨hp, hl, _⟩ := runExtract_spec ts (initExtract d) s1 hr
    subst hls
    subst hps
    refine ⟨by simpa [initExtract] using hp, ?_⟩
    intro l hl1
    rcases hl l hl1 with hin | hgood
    · simp [initExtract] at hin
    · exact hgood

/-- Every link returned by `extractLinks` satisfies `goodLink`. -/
theorem extractLinks_goodLink (d : URL) (ts : List Token) (ls : List URL)
    (ps : List String) (h : extractLinks d ts = some (ls, ps)) :
    ∀ l ∈ ls, goodLink l := by
  intro l hl
  obtain ⟨_, hall⟩ := extractLinks_spec d ts ls ps h
  obtain ⟨raw, v, _, _, b, hres, hlv⟩ := hall l hl
  subst hlv
  refine ⟨rfl, fun hweb => ?_⟩
  have hv : v.scheme = "http" ∨ v.scheme = "https" ∨ v.scheme = "ftp" := by
    rcases (isWebUrl_iff (stripFragment v)).mp hweb with h1 | h1
    · exact Or.inl h1
    · exact Or.inr (Or.inl h1)
  exact resolveHref_ok_host b raw v hres hv

/-- Unfolding equation: a crashing delivery ends the scheduler run. -/
theorem runSched_cons_none (st : SchedState) (e : CrawlEvent) (es : List CrawlEvent)
    (h : schedStep st e = none) : runSched st (e :: es) = none := by
  simp [runSched, h]

/-- Unfolding equation: a handled delivery continues the scheduler run. -/
theorem runSched_cons_some (st st2 : SchedState) (e : CrawlEvent)
    (es : List CrawlEvent) (h : schedStep st e = some st2) :
    runSched st (e :: es) = runSched st2 es := by
  simp [runSched, h]

/-- A scheduler run over concatenated delivery lists is the composition of
the two runs. -/
theorem runSched_append (st : SchedState) (xs ys : List CrawlEvent) :
    runSched st (xs ++ ys) =
      (runSched st xs).bind (fun st2 => runSched st2 ys) := by
  induction xs generalizing st with
  | nil => simp [runSched]
  | cons e es ih =>
    cases h : schedStep st e with
    | none =>
      rw [List.cons_append, runSched_cons_none st e (es ++ ys) h,
          runSched_cons_none st e es h]
      rfl
    | some st2 =>
      rw [List.cons_append, runSched_cons_some st st2 e (es ++ ys) h,
          runSched_cons_some st st2 e es h]
      exact ih st2

/-- The scheduler invariant: the admitted list is non-empty (its head is
the seed), the dedup set holds exactly the string forms of the addresses
admitted after the seed with no duplicates, and every address admitted
after the seed has a web scheme, a non-empty host, and an empty fragment. -/
def schedOK (st : SchedState) : Prop :=
  st.admitted ≠ [] ∧
  st.visited = st.admitted.tail.map URL.toString ∧
  st.visited.Nodup ∧
  ∀ u ∈ st.admitted.tail,
    (u.scheme = "http" ∨ u.scheme = "https") ∧ ¬ u.host = "" ∧ u.fragment = ""

/-- Admitting one link never removes entries from the dedup set. -/
theorem admitOne_visited_mono (st : SchedState) (l : URL) (x : String)
    (hx : x ∈ st.visited) : x ∈ (admitOne st l).visited := by
  unfold admitOne
  by_cases hw : isWebUrl l
  · rw [if_pos hw]
    by_cases hc : st.visited.contains (URL.toString (stripFragment l))
    · rw [if_pos hc]; exact hx
    · rw [if_neg hc]
      exact List.mem_append.mpr (Or.inl hx)
  · rw [if_neg hw]; exact hx

/-- Folding a link list into the scheduler never removes dedup entries. -/
theorem admitLinks_visited_mono (ls : List URL) (st : SchedState) (x : String)
    (hx : x ∈ st.visited) : x ∈ (admitLinks st ls).visited := by
  induction ls generalizing st with
  | nil => exact hx
  | cons l ls ih => exact ih (admitOne st l) (admitOne_visited_mono st l x hx)

/-- Admitting one link preserves the scheduler invariant when the link has
an empty fragment and (if web) a non-empty host. -/
theorem admitOne_ok (st : SchedState) (l : URL) (hok : schedOK st)
    (hg : goodLink l) : schedOK (admitOne st l) := by
  obtain ⟨hne, hvis, hnd, hall⟩ := hok
  unfold admitOne
  by_cases hw : isWebUrl l
  · rw [if_pos hw]
    by_cases hc : st.visited.contains (URL.toString (stripFragment l))
    · rw [if_pos hc]; exact ⟨hne, hvis, hnd, hall⟩
    · rw [if_neg hc]
      have htail : (st.admitted ++ [stripFragment l]).tail
          = st.admitted.tail ++ [stripFragment l] := by
        cases hA : st.admitted with
        | nil => exact absurd hA hne
        | cons a as => simp
      refine ⟨by simp, ?_, ?_, ?_⟩
      · simp only [htail, List.map_append, List.map_cons, List.map_nil]
        rw [hvis]
      · rw [List.nodup_append]
        refine ⟨hnd, List.nodup_singleton _, fun a ha hax => ?_⟩
        rw [List.mem_singleton] at hax
        subst hax
        exact (by simpa [List.elem_iff] using hc : _ ∉ st.visited) ha
      · intro u hu
        rw [htail] at hu
        rcases List.mem_append.mp hu with h1 | h1
        · exact hall u h1
        · rw [List.mem_singleton] at h1
          subst h1
          exact ⟨(isWebUrl_iff l).mp hw, hg.2 hw, rfl⟩
  · rw [if_neg hw]; exact ⟨hne, hvis, hnd, hall⟩

/-- Folding a link list preserves the scheduler invariant when every link
satisfies `goodLink`. -/
theorem admitLinks_ok (ls : List URL) (st : SchedState) (hok : schedOK st)
    (hg : ∀ l ∈ ls, goodLink l) : schedOK (admitLinks st ls) := by
  induction ls generalizing st with
  | nil => exact hok
  | cons l ls ih =>
    exact ih (admitOne st l) (admitOne_ok st l hok (hg l (List.mem_cons_self l ls)))
      (fun x hx => hg x (List.mem_cons_of_mem l hx))

/-- One scheduler step preserves the invariant. -/
theorem schedStep_ok (st st2 : SchedState) (e : CrawlEvent)
    (h : schedStep st e = some st2) (hok : schedOK st) : schedOK st2 := by
  obtain ⟨hne, hvis, hnd, hall⟩ := hok
  cases e with
  | errorResult u =>
    simp only [schedStep, Option.some.injEq] at h
    subst h
    exact ⟨hne, hvis, hnd, hall⟩
  | pageResult docUrl tokens =>
    simp only [schedStep] at h
    cases hx : extractLinks docUrl tokens with
    | none => rw [hx] at h; simp at h
    | some r =>
      rw [hx] at h
      obtain ⟨ls, ps⟩ := r
      simp only [Option.some.injEq] at h
      subst h
      exact admitLinks_ok ls _ ⟨hne, hvis, hnd, hall⟩
        (extractLinks_goodLink docUrl tokens ls ps hx)

/-- A whole scheduler run preserves the invariant. -/
theorem runSched_ok_of (st st2 : SchedState) (events : List CrawlEvent)
    (h : runSched st events = some st2) (hok : schedOK st) : schedOK st2 := by
  induction events generalizing st with
  | nil =>
    simp only [runSched, Option.some.injEq] at h
    subst h
    exact hok
  | cons e es ih =>
    cases hs : schedStep st e with
    | none => rw [runSched_cons_none st e es hs] at h; simp at h
    | some stm =>
      rw [runSched_cons_some st stm e es hs] at h
      exact ih stm h (schedStep_ok st stm e hs hok)

/-- The initial scheduler state satisfies the invariant, so every state
reached from it does. -/
theorem runSched_ok (seed : URL) (events : List CrawlEvent) (st : SchedState)
    (h : runSched (initState seed) events = some st) : schedOK st := by
  refine runSched_ok_of (initState seed) st events h ?_
  exact ⟨by simp [initState], by simp [initState], by simp [initState],
    by simp [initState]⟩

/-- After folding a link list, every web link of the list has its stripped
string form in the dedup set (it was either just admitted or already
known). -/
theorem admitLinks_mem_visited (ls : List URL) (st : SchedState) (l : URL)
    (hl : l ∈ ls) (hw : isWebUrl l = true) :
    URL.toString (stripFragment l) ∈ (admitLinks st ls).visited := by
  induction ls generalizing st with
  | nil => cases hl
  | cons a as ih =>
    rcases List.mem_cons.mp hl with h1 | h1
    · subst h1
      have hmem : URL.toString (stripFragment l) ∈ (admitOne st l).visited := by
        unfold admitOne
        rw [if_pos hw]
        by_cases hc : st.visited.contains (URL.toString (stripFragment l))
        · rw [if_pos hc]
          exact List.elem_iff.mp hc
        · rw [if_neg hc]
          exact List.mem_append.mpr (Or.inr (List.mem_singleton.mpr rfl))
      exact admitLinks_visited_mono as (admitOne st l) _ hmem
    · exact ih (admitOne st a) h1

/-- One scheduler step never removes entries from the dedup set. -/
theorem schedStep_visited_mono (st st2 : SchedState) (e : CrawlEvent)
    (h : schedStep st e = some st2) (x : String) (hx : x ∈ st.visited) :
    x ∈ st2.visited := by
  cases e with
  | errorResult u =>
    simp only [schedStep, Option.some.injEq] at h
    subst h
    exact hx
  | pageResult docUrl tokens =>
    simp only [schedStep] at h
    cases hex : extractLinks docUrl tokens with
    | none => rw [hex] at h; simp at h
    | some r =>
      rw [hex] at h
      obtain ⟨ls, ps⟩ := r
      simp only [Option.some.injEq] at h
      subst h
      exact admitLinks_visited_mono ls _ x hx

/-- A whole scheduler run never removes entries from the dedup set. -/
theorem runSched_visited_mono (events : List CrawlEvent) (st st2 : SchedState)
    (h : runSched st events = some st2) (x : String) (hx : x ∈ st.visited) :
    x ∈ st2.visited := by
  induction events generalizing st with
  | nil =>
    simp only [runSched, Option.some.injEq] at h
    subst h
    exact hx
  | cons e es ih =>
    cases hs : schedStep st e with
    | none => rw [runSched_cons_none st e es hs] at h; simp at h
    | some stm =>
      rw [runSched_cons_some st stm e es hs] at h
      exact ih stm h (schedStep_visited_mono st stm e hs x hx)

/-- An extraction run over concatenated token lists is the composition of
the two runs. -/
theorem runExtract_append (s : ExtractState) (xs ys : List Token) :
    runExtract s (xs ++ ys) =
      (runExtract s xs).bind (fun s2 => runExtract s2 ys) := by
  induction xs generalizing s with
  | nil => simp [runExtract]
  | cons t ts ih =>
    cases h : stepExtract s t with
    | none =>
      rw [List.cons_append, runExtract_cons_none s t (ts ++ ys) h,
          runExtract_cons_none s t ts h]
      rfl
    | some s2 =>
      rw [List.cons_append, runExtract_cons_some s s2 t (ts ++ ys) h,
          runExtract_cons_some s s2 t ts h]
      exact ih s2

/-- C3: for a base with non-empty scheme and host and a reference that
parses as a URL with empty scheme, host and path, `resolveHref` succeeds
and yields an address with the base's scheme and host whose path is the
base's path, or `/` when the base's path is empty; when the base lacks a
scheme or a host, it fails with the missing-base error instead. -/
theorem c3_resolve_empty_ref (base : URL) (s : String) (u : URL) :
    (¬ base.scheme = "" → ¬ base.host = "" → parseURL s = some u →
      u.scheme = "" → u.host = "" → u.path = "" →
      resolveHref base s =
        Except.ok ⟨base.scheme, base.host,
          if base.path = "" then "/" else base.path, u.fragment⟩) ∧
    (base.scheme = "" ∨ base.host = "" →
      resolveHref base s = Except.error ResolveError.missingBase) := by
  constructor
  · intro h1 h2 hp hs hh hpath
    unfold resolveHref
    rw [if_neg (by rintro (h | h) <;> [exact h1 h; exact h2 h])]
    simp only [hp]
    unfold mergeURL
    rw [if_pos (Or.inl hs)]
    simp [hs, hh, hpath]
  · intro h
    unfold resolveHref
    rw [if_pos h]

/-- Witness for C3: the empty reference against `http://h` resolves to
`http://h/`, and a base without a scheme gives the missing-base error. -/
theorem c3_witness :
    parseURL "" = some ⟨"", "", "", ""⟩ ∧
    resolveHref ⟨"http", "h", "", ""⟩ "" = Except.ok ⟨"http", "h", "/", ""⟩ ∧
    resolveHref ⟨"", "h", "/p", ""⟩ "x" = Except.error ResolveError.missingBase := by
  have hp : parseURL "" = some ⟨"", "", "", ""⟩ := by decide
  refine ⟨hp, ?_,
    (c3_resolve_empty_ref ⟨"", "h", "/p", ""⟩ "x" ⟨"", "", "", ""⟩).2 (Or.inl rfl)⟩
  have h2 := (c3_resolve_empty_ref ⟨"http", "h", "", ""⟩ "" ⟨"", "", "", ""⟩).1
    (by decide) (by decide) hp rfl rfl rfl
  simpa using h2

/-- C5: on a document whose head has a base tag with an unparseable href,
extraction does not fall back to the document address: the run panics
(`url.Parse` returns a nil pointer on error and the fallback assignment
`*baseURL = documentUrl` dereferences it), so the whole extraction crashes
instead of continuing with the remaining links. -/
theorem c5_malformed_base_panics :
    extractLinks ⟨"http", "example.com", "/", ""⟩
      [Token.startTag "head" [], Token.startTag "base" [("href", "://x")],
       Token.startTag "a" [("href", "/b")]] = none := by decide

/-- C6: whenever extraction finishes, the phone-number sequence is exactly
the telephone-matching anchor hrefs, verbatim and in document order, and
every returned link is the fragment-stripped result of URL resolution of a
non-telephone anchor href, so a matching `tel://` value is recorded
verbatim, is never resolved, and never enters the link sequence. -/
theorem c6_tel_hrefs (d : URL) (ts : List Token) (ls : List URL)
    (ps : List String) (h : extractLinks d ts = some (ls, ps)) :
    ps = (anchorHrefs ts).filter telMatches ∧
    ∀ l ∈ ls, ∃ raw, raw ∈ anchorHrefs ts ∧ telMatches raw = false ∧
      ∃ b v, resolveHref b raw = Except.ok v ∧ l = stripFragment v := by
  obtain ⟨h1, h2⟩ := extractLinks_spec d ts ls ps h
  refine ⟨h1, fun l hl => ?_⟩
  obtain ⟨raw, v, hraw, htel, b, hres, hlv⟩ := h2 l hl
  exact ⟨raw, hraw, htel, b, v, hres, hlv⟩

/-- Witness for C6: a concrete page with one telephone anchor and one
ordinary anchor. -/
theorem c6_witness :
    extractLinks ⟨"http", "example.com", "/", ""⟩
      [Token.startTag "a" [("href", "tel://5551234")],
       Token.startTag "a" [("href", "/b")]]
      = some ([⟨"http", "example.com", "/b", ""⟩], ["tel://5551234"]) ∧
    ["tel://5551234"] =
      (anchorHrefs [Token.startTag "a" [("href", "tel://5551234")],
        Token.startTag "a" [("href", "/b")]]).filter telMatches := by
  have h : extractLinks ⟨"http", "example.com", "/", ""⟩
      [Token.startTag "a" [("href", "tel://5551234")],
       Token.startTag "a" [("href", "/b")]]
      = some ([⟨"http", "example.com", "/b", ""⟩], ["tel://5551234"]) := by decide
  exact ⟨h, (c6_tel_hrefs _ _ _ _ h).1⟩

/-- C10: the in-head flag is set by a head start tag and never cleared
afterwards (end tags are not inspected), so a base tag with a parseable
href appearing anywhere after a head start tag — the `mid` tokens may be
arbitrary body content — replaces the resolution base used for all
subsequent link resolution, and the flag is still set. -/
theorem c10_base_after_head (docUrl : URL) (pre mid : List Token)
    (attrs : List (String × String)) (h : String) (u : URL) (st : ExtractState)
    (hattr : getAttribute attrs "href" = some h)
    (hparse : parseURL h = some u)
    (hrun : runExtract (initExtract docUrl)
      (pre ++ [Token.startTag "head" []] ++ mid ++ [Token.startTag "base" attrs])
      = some st) :
    st.base = u ∧ st.inHeader = true := by
  rw [runExtract_append (initExtract docUrl)
    (pre ++ [Token.startTag "head" []] ++ mid) [Token.startTag "base" attrs]] at hrun
  cases h3 : runExtract (initExtract docUrl)
      (pre ++ [Token.startTag "head" []] ++ mid) with
  | none => rw [h3] at hrun; simp at hrun
  | some s3 =>
    rw [h3] at hrun
    have hrun2 : runExtract s3 [Token.startTag "base" attrs] = some st := hrun
    rw [runExtract_append (initExtract docUrl) (pre ++ [Token.startTag "head" []])
      mid] at h3
    cases h2 : runExtract (initExtract docUrl) (pre ++ [Token.startTag "head" []]) with
    | none => rw [h2] at h3; simp at h3
    | some s2 =>
      rw [h2] at h3
      have h3b : runExtract s2 mid = some s3 := h3
      rw [runExtract_append (initExtract docUrl) pre [Token.startTag "head" []]] at h2
      cases h1 : runExtract (initExtract docUrl) pre with
      | none => rw [h1] at h2; simp at h2
      | some s1 =>
        rw [h1] at h2
        have h2b : runExtract s1 [Token.startTag "head" []] = some s2 := h2
        have hstep1 : stepExtract s1 (Token.startTag "head" []) =
            some { s1 with inHeader := true } := by
          simp [stepExtract]
        rw [runExtract_cons_some s1 _ _ [] hstep1] at h2b
        simp only [runExtract, Option.some.injEq] at h2b
        have hs2 : s2.inHeader = true := by rw [← h2b]
        have hs3 : s3.inHeader = true :=
          (runExtract_spec mid s2 s3 h3b).2.2 hs2
        have hstep2 : stepExtract s3 (Token.startTag "base" attrs) =
            some { s3 with base := u } := by
          simp [stepExtract, hs3, hattr, hparse]
        rw [runExtract_cons_some s3 _ _ [] hstep2] at hrun2
        simp only [runExtract, Option.some.injEq] at hrun2
        rw [← hrun2]
        exact ⟨rfl, hs3⟩

/-- Witness for C10: the base tag sits inside the body, after the head was
opened and closed, and still replaces the resolution base. -/
theorem c10_witness :
    runExtract (initExtract ⟨"http", "example.com", "/", ""⟩)
      ([] ++ [Token.startTag "head" []] ++
        [Token.otherToken, Token.startTag "body" []] ++
        [Token.startTag "base" [("href", "http://alt.example.com/dir/")]])
      = some ⟨true, ⟨"http", "alt.example.com", "/dir/", ""⟩, [], []⟩ ∧
    (⟨true, ⟨"http", "alt.example.com", "/dir/", ""⟩, [], []⟩ : ExtractState).base
      = ⟨"http", "alt.example.com", "/dir/", ""⟩ ∧
    (⟨true, ⟨"http", "alt.example.com", "/dir/", ""⟩, [], []⟩ : ExtractState).inHeader
      = true := by
  have hr : runExtract (initExtract ⟨"http", "example.com", "/", ""⟩)
      ([] ++ [Token.startTag "head" []] ++
        [Token.otherToken, Token.startTag "body" []] ++
        [Token.startTag "base" [("href", "http://alt.example.com/dir/")]])
      = some ⟨true, ⟨"http", "alt.example.com", "/dir/", ""⟩, [], []⟩ := by decide
  refine ⟨hr, ?_, ?_⟩
  · exact (c10_base_after_head ⟨"http", "example.com", "/", ""⟩ []
      [Token.otherToken, Token.startTag "body" []]
      [("href", "http://alt.example.com/dir/")] "http://alt.example.com/dir/"
      ⟨"http", "alt.example.com", "/dir/", ""⟩
      ⟨true, ⟨"http", "alt.example.com", "/dir/", ""⟩, [], []⟩
      (by decide) (by decide) hr).1
  · exact (c10_base_after_head ⟨"http", "example.com", "/", ""⟩ []
      [Token.otherToken, Token.startTag "body" []]
      [("href", "http://alt.example.com/dir/")] "http://alt.example.com/dir/"
      ⟨"http", "alt.example.com", "/dir/", ""⟩
      ⟨true, ⟨"http", "alt.example.com", "/dir/", ""⟩, [], []⟩
      (by decide) (by decide) hr).2

/-- Counterexample for C2: `url.Parse("foo")` succeeds with empty scheme
and host, and `startCrawling` puts this seed on the frontier unvalidated,
so not every address admitted into the frontier has a non-empty scheme and
host. -/
theorem c2_counterexample :
    parseURL "foo" = some ⟨"", "", "foo", ""⟩ ∧
    (⟨"", "", "foo", ""⟩ : URL) ∈ (initState ⟨"", "", "foo", ""⟩).admitted ∧
    ¬ (∀ u ∈ (initState ⟨"", "", "foo", ""⟩).admitted,
        ¬ u.scheme = "" ∧ ¬ u.host = "") := by decide

/-- C2 amended: every address the scheduler admits into the frontier from
extracted links — that is, every admitted address except the initial seed,
which is enqueued without validation — has scheme `http` or `https` (hence
non-empty), a non-empty host, and an empty fragment. -/
theorem c2_amended_admitted_links (seed : URL) (events : List CrawlEvent)
    (st : SchedState) (h : runSched (initState seed) events = some st) :
    ∀ u ∈ st.admitted.tail,
      (u.scheme = "http" ∨ u.scheme = "https") ∧ ¬ u.host = "" ∧ u.fragment = "" :=
  (runSched_ok seed events st h).2.2.2

/-- Witness for C2 amended: one page delivering one link. -/
theorem c2_witness :
    runSched (initState ⟨"http", "example.com", "/a", ""⟩)
        [CrawlEvent.pageResult ⟨"http", "example.com", "/a", ""⟩
          [Token.startTag "a" [("href", "/b")]]]
      = some ⟨[⟨"http", "example.com", "/b", ""⟩], ["http://example.com/b"], 1,
          [⟨"http", "example.com", "/a", ""⟩, ⟨"http", "example.com", "/b", ""⟩]⟩ ∧
    (((⟨"http", "example.com", "/b", ""⟩ : URL).scheme = "http" ∨
        (⟨"http", "example.com", "/b", ""⟩ : URL).scheme = "https") ∧
      ¬ (⟨"http", "example.com", "/b", ""⟩ : URL).host = "" ∧
      (⟨"http", "example.com", "/b", ""⟩ : URL).fragment = "") := by
  have h : runSched (initState ⟨"http", "example.com", "/a", ""⟩)
        [CrawlEvent.pageResult ⟨"http", "example.com", "/a", ""⟩
          [Token.startTag "a" [("href", "/b")]]]
      = some ⟨[⟨"http", "example.com", "/b", ""⟩], ["http://example.com/b"], 1,
          [⟨"http", "example.com", "/a", ""⟩, ⟨"http", "example.com", "/b", ""⟩]⟩ := by
    decide
  exact ⟨h, c2_amended_admitted_links ⟨"http", "example.com", "/a", ""⟩ _ _ h
    ⟨"http", "example.com", "/b", ""⟩ (by decide)⟩

/-- Counterexample for C4: for the page at `http://example.com/a` with
anchors `/b` and `./c`, the enqueued addresses are not
`http://example.com/b` and `http://example.com/c`: the relative href is
concatenated onto the base directory without dot-segment normalization,
giving path `/./c`. -/
theorem c4_counterexample :
    runSched (initState ⟨"http", "example.com", "/a", ""⟩)
        [CrawlEvent.pageResult ⟨"http", "example.com", "/a", ""⟩
          [Token.startTag "a" [("href", "/b")], Token.startTag "a" [("href", "./c")],
           Token.startTag "a" [("href", "tel://5551234")]]]
      = some ⟨[⟨"http", "example.com", "/b", ""⟩, ⟨"http", "example.com", "/./c", ""⟩],
          ["http://example.com/b", "http://example.com/./c"], 2,
          [⟨"http", "example.com", "/a", ""⟩, ⟨"http", "example.com", "/b", ""⟩,
           ⟨"http", "example.com", "/./c", ""⟩]⟩ ∧
    (⟨[⟨"http", "example.com", "/b", ""⟩, ⟨"http", "example.com", "/./c", ""⟩],
          ["http://example.com/b", "http://example.com/./c"], 2,
          [⟨"http", "example.com", "/a", ""⟩, ⟨"http", "example.com", "/b", ""⟩,
           ⟨"http", "example.com", "/./c", ""⟩]⟩ : SchedState).admitted.tail
      ≠ [⟨"http", "example.com", "/b", ""⟩, ⟨"http", "example.com", "/c", ""⟩] := by
  decide

/-- C4 amended: the scheduler enqueues exactly `http://example.com/b` and
`http://example.com/./c` (the `./c` href is concatenated onto the base
directory `/` with no dot-segment normalization), the phone number
`tel://5551234` is recorded, and the enqueued addresses carry empty
fragments, stripped before the dedup comparison. -/
theorem c4_amended_enqueued :
    runSched (initState ⟨"http", "example.com", "/a", ""⟩)
        [CrawlEvent.pageResult ⟨"http", "example.com", "/a", ""⟩
          [Token.startTag "a" [("href", "/b")], Token.startTag "a" [("href", "./c")],
           Token.startTag "a" [("href", "tel://5551234")]]]
      = some ⟨[⟨"http", "example.com", "/b", ""⟩, ⟨"http", "example.com", "/./c", ""⟩],
          ["http://example.com/b", "http://example.com/./c"], 2,
          [⟨"http", "example.com", "/a", ""⟩, ⟨"http", "example.com", "/b", ""⟩,
           ⟨"http", "example.com", "/./c", ""⟩]⟩ ∧
    extractLinks ⟨"http", "example.com", "/a", ""⟩
        [Token.startTag "a" [("href", "/b")], Token.startTag "a" [("href", "./c")],
         Token.startTag "a" [("href", "tel://5551234")]]
      = some ([⟨"http", "example.com", "/b", ""⟩, ⟨"http", "example.com", "/./c", ""⟩],
          ["tel://5551234"]) ∧
    (⟨"http", "example.com", "/b", ""⟩ : URL).fragment = "" ∧
    (⟨"http", "example.com", "/./c", ""⟩ : URL).fragment = "" := by decide

/-- C1: the `for`/`select` loop of `startCrawling` has no exit branch, so
no crawl ever reaches the returned-and-closed outcome; in particular, for
a seed whose page yields no links the quiescent state (outstanding counter
zero, frontier empty) is reached, yet the scheduler is still blocked
waiting for events instead of closing the pipeline and returning. -/
theorem c1_no_quiescent_exit :
    (∀ (seed : URL) (events : List CrawlEvent),
      (runCrawl seed events).1 ≠ LoopOutcome.returnedAfterClose) ∧
    runCrawl ⟨"http", "example.com", "/", ""⟩
        [CrawlEvent.pageResult ⟨"http", "example.com", "/", ""⟩ []]
      = (LoopOutcome.waitingForEvents,
          some ⟨[], [], 0, [⟨"http", "example.com", "/", ""⟩]⟩) ∧
    (⟨[], [], 0, [⟨"http", "example.com", "/", ""⟩]⟩ : SchedState).counter = 0 ∧
    (⟨[], [], 0, [⟨"http", "example.com", "/", ""⟩]⟩ : SchedState).frontier = [] := by
  refine ⟨?_, by decide, by decide, by decide⟩
  intro seed events
  unfold runCrawl
  cases runSched (initState seed) events <;> simp

/-- Counterexample for C7: for the unparseable seed argument `://x`, the
exit status is 0, not non-zero — `main` prints the error and executes a
plain `return`. -/
theorem c7_counterexample :
    parseURL "://x" = none ∧
    ¬ (∀ n, (mainModel "://x").exitCode = some n → n ≠ 0) := by
  refine ⟨by decide, fun h => ?_⟩
  exact h 0 (by decide) rfl

/-- C7 amended: when the seed argument cannot be parsed, the program fails
immediately — it prints a parse-error message and returns before starting
any workers — but the process exit status is zero, not non-zero. -/
theorem c7_amended_exit_zero (s : String) (h : parseURL s = none) :
    mainModel s = ⟨true, false, some 0⟩ := by
  simp [mainModel, h]

/-- Witness for C7 amended at the concrete unparseable seed `://x`. -/
theorem c7_witness :
    parseURL "://x" = none ∧
    mainModel "://x" = ⟨true, false, some 0⟩ := by
  have h : parseURL "://x" = none := by decide
  exact ⟨h, c7_amended_exit_zero "://x" h⟩

/-- Decidable equality of resolution results, for concrete evaluation. -/
instance : DecidableEq (Except ResolveError URL) := fun x y =>
  match x, y with
  | Except.ok a, Except.ok b =>
    if h : a = b then isTrue (by rw [h]) else isFalse (fun hh => h (by injection hh))
  | Except.error a, Except.error b =>
    if h : a = b then isTrue (by rw [h]) else isFalse (fun hh => h (by injection hh))
  | Except.ok a, Except.error b => isFalse (fun hh => Except.noConfusion hh)
  | Except.error a, Except.ok b => isFalse (fun hh => Except.noConfusion hh)

/-- Counterexample for C8: resolving the empty reference against the valid
base `{http, h, path abc}` succeeds with the rootless path `abc`; its
fragment-stripped string form is `http://h/abc` (the printer inserts a
`/`), and re-resolving that string against the same base yields path
`/abc`, a different address — so resolve is not idempotent under
fragment-stripping for every successfully resolved address. -/
theorem c8_counterexample :
    resolveHref ⟨"http", "h", "abc", ""⟩ "" = Except.ok ⟨"http", "h", "abc", ""⟩ ∧
    URL.toString (stripFragment ⟨"http", "h", "abc", ""⟩) = "http://h/abc" ∧
    resolveHref ⟨"http", "h", "abc", ""⟩
        (URL.toString (stripFragment ⟨"http", "h", "abc", ""⟩))
      = Except.ok ⟨"http", "h", "/abc", ""⟩ ∧
    (⟨"http", "h", "/abc", ""⟩ : URL) ≠ ⟨"http", "h", "abc", ""⟩ := by decide

/-- A successfully resolved address never has an empty scheme: the merge
branch inherits the base's non-empty scheme when the reference's is empty,
and the pass-through branch requires a scheme outside the merge set, hence
non-empty. -/
theorem resolveHref_ok_scheme (b : URL) (raw : String) (v : URL)
    (h : resolveHref b raw = Except.ok v) : ¬ v.scheme = "" := by
  obtain ⟨hbase, u, hp, hv⟩ := resolveHref_ok_cases b raw v h
  subst hv
  have hbs : ¬ b.scheme = "" := fun hh => hbase (Or.inl hh)
  by_cases hc : u.scheme = "" ∨ u.scheme = "http" ∨ u.scheme = "https" ∨ u.scheme = "ftp"
  · simp only [mergeURL, if_pos hc]
    by_cases hs : u.scheme = "" <;> simp [hs, hbs]
  · simp only [mergeURL, if_neg hc]
    intro hh
    exact hc (Or.inl hh)

/-- C8 amended: for every address `a` that `resolveHref` returns
successfully — provided `a`'s path begins with `/` whenever `a`'s scheme is
one of the merged network schemes (`http`, `https`, `ftp`) — re-resolving
the fragment-stripped string form of `a` against any base with non-empty
scheme and host yields exactly the fragment-stripped `a`, given that the
external parser round-trips that string form back to `a`'s components (as
`net/url` does for well-formed hosts).  Non-network addresses pass through
the resolver unmodified, so no path condition is needed for them; network
addresses with a rootless path, or addresses with a non-empty fragment,
are not recovered verbatim. -/
theorem c8_amended_idempotent (b1 b2 : URL) (href : String) (a : URL)
    (h1 : resolveHref b1 href = Except.ok a)
    (hp : (a.scheme = "http" ∨ a.scheme = "https" ∨ a.scheme = "ftp") →
      a.path.take 1 = "/")
    (hb2 : ¬ (b2.scheme = "" ∨ b2.host = ""))
    (hrt : parseURL (URL.toString (stripFragment a)) = some (stripFragment a)) :
    resolveHref b2 (URL.toString (stripFragment a))
      = Except.ok (stripFragment a) := by
  have hschne : ¬ a.scheme = "" := resolveHref_ok_scheme b1 href a h1
  unfold resolveHref
  rw [if_neg hb2]
  simp only [hrt]
  by_cases hnet : a.scheme = "http" ∨ a.scheme = "https" ∨ a.scheme = "ftp"
  · have hhost : ¬ a.host = "" := resolveHref_ok_host b1 href a h1 hnet
    have hpath := hp hnet
    have hpne : ¬ a.path = "" := by
      intro h0
      rw [h0] at hpath
      exact absurd hpath (by decide)
    unfold mergeURL
    rw [if_pos (by
      rcases hnet with h | h | h
      · exact Or.inr (Or.inl (show (stripFragment a).scheme = "http" from h))
      · exact Or.inr (Or.inr (Or.inl (show (stripFragment a).scheme = "https" from h)))
      · exact Or.inr (Or.inr (Or.inr (show (stripFragment a).scheme = "ftp" from h))))]
    rw [if_neg (show ¬ (stripFragment a).scheme = "" from hschne),
        if_neg (show ¬ (stripFragment a).host = "" from hhost),
        if_neg (show ¬ (stripFragment a).path = "" from hpne),
        if_neg (show ¬ (stripFragment a).path.take 1 ≠ "/" from by
          simp [show (stripFragment a).path = a.path from rfl, hpath])]
  · unfold mergeURL
    rw [if_neg (by
      rintro (h | h | h | h)
      · exact hschne h
      · exact hnet (Or.inl h)
      · exact hnet (Or.inr (Or.inl h))
      · exact hnet (Or.inr (Or.inr h)))]

/-- Witness for C8 amended: an already-absolute `http` address round-trips
through the merge branch, and a `gopher` address round-trips through the
pass-through branch with no path condition. -/
theorem c8_witness :
    resolveHref ⟨"http", "h", "/x", ""⟩ "" = Except.ok ⟨"http", "h", "/x", ""⟩ ∧
    resolveHref ⟨"http", "h", "/x", ""⟩
        (URL.toString (stripFragment ⟨"http", "h", "/x", ""⟩))
      = Except.ok (stripFragment ⟨"http", "h", "/x", ""⟩) ∧
    resolveHref ⟨"http", "h", "/", ""⟩ "gopher://g/x"
      = Except.ok ⟨"gopher", "g", "/x", ""⟩ ∧
    resolveHref ⟨"http", "h", "/", ""⟩
        (URL.toString (stripFragment ⟨"gopher", "g", "/x", ""⟩))
      = Except.ok (stripFragment ⟨"gopher", "g", "/x", ""⟩) := by
  have h1 : resolveHref ⟨"http", "h", "/x", ""⟩ ""
      = Except.ok ⟨"http", "h", "/x", ""⟩ := by decide
  have h2 : resolveHref ⟨"http", "h", "/", ""⟩ "gopher://g/x"
      = Except.ok ⟨"gopher", "g", "/x", ""⟩ := by decide
  refine ⟨h1, c8_amended_idempotent ⟨"http", "h", "/x", ""⟩ ⟨"http", "h", "/x", ""⟩
    "" ⟨"http", "h", "/x", ""⟩ h1 (by decide) (by decide) (by decide), h2,
    c8_amended_idempotent ⟨"http", "h", "/", ""⟩ ⟨"http", "h", "/", ""⟩
    "gopher://g/x" ⟨"gopher", "g", "/x", ""⟩ h2 (by decide) (by decide) (by decide)⟩

/-- C9: the seed goes onto the frontier without being recorded in the
dedup set; every address enqueued by the result loop is enqueued at most
once (their string forms carry no duplicate); and if any delivered page
contains an extracted link equal, after fragment stripping, to the (web)
seed, then the seed's stripped string form appears among the addresses
enqueued by the result loop — the seed is enqueued, and hence fetched, a
second time. -/
theorem c9_seed_requeue (seed : URL) (events : List CrawlEvent) (st : SchedState)
    (hrun : runSched (initState seed) events = some st) :
    (initState seed).visited = [] ∧
    (st.admitted.tail.map URL.toString).Nodup ∧
    (isWebUrl seed = true →
      ∀ d ts ls ps l, CrawlEvent.pageResult d ts ∈ events →
        extractLinks d ts = some (ls, ps) → l ∈ ls →
        stripFragment l = stripFragment seed →
        URL.toString (stripFragment seed) ∈ st.admitted.tail.map URL.toString) := by
  obtain ⟨hne, hvis, hnd, hall⟩ := runSched_ok seed events st hrun
  refine ⟨rfl, by rw [← hvis]; exact hnd, ?_⟩
  intro hweb d ts ls ps l hmem hext hl hstrip
  obtain ⟨e1, e2, hsplit⟩ := List.append_of_mem hmem
  subst hsplit
  rw [runSched_append (initState seed) e1 (CrawlEvent.pageResult d ts :: e2)] at hrun
  cases h1 : runSched (initState seed) e1 with
  | none => rw [h1] at hrun; simp at hrun
  | some st1 =>
    rw [h1] at hrun
    have hrun2 : runSched st1 (CrawlEvent.pageResult d ts :: e2) = some st := hrun
    have hsch : l.scheme = seed.scheme := by
      have h0 := congrArg URL.scheme hstrip
      simpa [stripFragment] using h0
    have hw : isWebUrl l = true := by
      unfold isWebUrl at hweb ⊢
      rw [hsch]
      exact hweb
    have hstep : schedStep st1 (CrawlEvent.pageResult d ts) =
        some (admitLinks
          { st1 with frontier := st1.frontier.erase d, counter := st1.counter - 1 }
          ls) := by
      simp [schedStep, hext]
    rw [runSched_cons_some _ _ _ e2 hstep] at hrun2
    have hmem2 : URL.toString (stripFragment l) ∈
        (admitLinks
          { st1 with frontier := st1.frontier.erase d, counter := st1.counter - 1 }
          ls).visited :=
      admitLinks_mem_visited ls _ l hl hw
    have hmem3 := runSched_visited_mono e2 _ st hrun2 _ hmem2
    rw [hstrip] at hmem3
    rw [hvis] at hmem3
    exact hmem3

/-- Witness for C9: a crawl whose only page links straight back to the
seed; the seed's string form is admitted a second time. -/
theorem c9_witness :
    runSched (initState ⟨"http", "example.com", "/", ""⟩)
        [CrawlEvent.pageResult ⟨"http", "example.com", "/", ""⟩
          [Token.startTag "a" [("href", "http://example.com/")]]]
      = some ⟨[⟨"http", "example.com", "/", ""⟩], ["http://example.com/"], 1,
          [⟨"http", "example.com", "/", ""⟩, ⟨"http", "example.com", "/", ""⟩]⟩ ∧
    URL.toString (stripFragment ⟨"http", "example.com", "/", ""⟩) ∈
      ((⟨[⟨"http", "example.com", "/", ""⟩], ["http://example.com/"], 1,
          [⟨"http", "example.com", "/", ""⟩, ⟨"http", "example.com", "/", ""⟩]⟩ :
        SchedState).admitted.tail.map URL.toString) := by
  have h : runSched (initState ⟨"http", "example.com", "/", ""⟩)
        [CrawlEvent.pageResult ⟨"http", "example.com", "/", ""⟩
          [Token.startTag "a" [("href", "http://example.com/")]]]
      = some ⟨[⟨"http", "example.com", "/", ""⟩], ["http://example.com/"], 1,
          [⟨"http", "example.com", "/", ""⟩, ⟨"http", "example.com", "/", ""⟩]⟩ := by
    decide
  refine ⟨h, ?_⟩
  exact (c9_seed_requeue ⟨"http", "example.com", "/", ""⟩ _ _ h).2.2 (by decide)
    ⟨"http", "example.com", "/", ""⟩
    [Token.startTag "a" [("href", "http://example.com/")]]
    [⟨"http", "example.com", "/", ""⟩] [] ⟨"http", "example.com", "/", ""⟩
    (by decide) (by decide) (by decide) (by decide)
